import Mathlib

/-
Verification of the batched thin-stack (shift-reduce) forward pass of
ThinStack (thin-stack.cc).

Shallow embedding conventions:
* Device float arrays holding data vectors (stack rows, buffer columns,
  weights) are modelled as total functions from flat element addresses
  into an arbitrary linearly ordered commutative ring `R` (the code never
  branches on data values, so every definition is executable once `R` is
  instantiated, e.g. at `R := ℤ`); addresses outside an allocated extent
  read whatever the ambient (uninitialized) memory holds, which is
  supplied through the initial state.
* Float arrays that only ever hold exact small integers (transitions,
  cursors, buffer_cur_t, queue backpointers) are modelled as `ℤ`-valued;
  all arithmetic performed on them in the source (axpy with +-1, +-2,
  storing the timestep index) is exact in single precision.
* The gather/scatter kernels (kernels.cuh is not part of the sources) are
  modelled from the spec, section 4.2, and from the call-site comments in
  ThinStack::step; cuBLAS gemm/axpy are modelled by their standard BLAS
  column-major semantics.
-/

namespace SpinnThinStack

/-- Configuration, learned parameters and per-pass inputs of one ThinStack
forward pass: `batch_size`, `model_dim`, `seq_length` from ModelSpec;
`compose_W_l`, `compose_W_r` (entry (row d, col k) of the column-major D x D
matrices) and `compose_b` from ThinStackParameters; `buffer` is the flat
input buffer (seq_length-many model_dim x batch_size matrices) and
`transitions` gives the float transition label of example `i` at timestep
`t` (0 = shift, 1 = reduce). -/
structure Ctx (R : Type) where
  batch_size : ℕ
  model_dim : ℕ
  seq_length : ℕ
  compose_W_l : ℕ → ℕ → R
  compose_W_r : ℕ → ℕ → R
  compose_b : ℕ → R
  buffer : ℤ → R
  transitions : ℕ → ℕ → ℤ

/-- Mutable device state of a ThinStack: the four core arrays (`stack`,
`queue`, `cursors`, `buffer_cur_t`) plus the per-step temporary containers
written by `step`. `stack` and `queue` are flat address spaces so that
out-of-extent offsets read ambient memory. -/
structure TSState (R : Type) where
  stack : ℤ → R
  queue : ℤ → ℤ
  cursors : ℕ → ℤ
  buffer_cur_t : ℕ → ℤ
  buffer_top_t : ℕ → ℕ → R
  stack_1_t : ℕ → ℕ → R
  stack_2_ptrs : ℕ → ℤ
  stack_2_t : ℕ → ℕ → R
  merge_output : ℕ → ℕ → R

variable {R : Type}

/-- Modelled from the spec: the row-copy part of the `subtensor1` gather
kernel (kernels.cuh is absent from the sources); reads feature `d` of the
width-`D` row that starts at flat row offset `off` of `src`. -/
def gatherRow (src : ℤ → R) (D : ℕ) (off : ℤ) (d : ℕ) : R :=
  src (off * D + d)

/-- Gather performed by the first `subtensor1` call of ThinStack::step:
buffer_top = buffer[buffer_cur_t * batch_size + batch_range]. -/
def bufferTopVal (c : Ctx R) (s : TSState R) (i d : ℕ) : R :=
  gatherRow c.buffer c.model_dim (s.buffer_cur_t i * c.batch_size + i) d

/-- Flat queue address read by the stack_2_ptrs gather of ThinStack::step:
(cursors - 1) + batch_range * seq_length. -/
def queueGatherAddr (c : Ctx R) (s : TSState R) (i : ℕ) : ℤ :=
  (i : ℤ) * c.seq_length + (s.cursors i - 1)

/-- Value of stack_2_ptrs after the `subtensor1` gather and the `addi_vv`
rescale in ThinStack::step: queue[(cursors-1) + i*seq_length] * batch_size
+ batch_range. -/
def stack2ptrsVal (c : Ctx R) (s : TSState R) (i : ℕ) : ℤ :=
  s.queue (queueGatherAddr c s i) * c.batch_size + i

/-- Flat stack row offset read by the stack_1 gather of ThinStack::step:
batch_range + (t - 1) * batch_size. -/
def stack1RowOff (c : Ctx R) (t : ℕ) (i : ℕ) : ℤ :=
  ((t : ℤ) - 1) * c.batch_size + i

/-- Gather performed by the stack_1 `subtensor1` call of ThinStack::step:
the stack row written at timestep t-1 (the current top of stack). -/
def stack1Val (c : Ctx R) (s : TSState R) (t : ℕ) (i d : ℕ) : R :=
  gatherRow s.stack c.model_dim (stack1RowOff c t i) d

/-- Gather performed by the stack_2 `subtensor1` call of ThinStack::step:
the stack row at the computed stack_2_ptrs (the left child). -/
def stack2Val (c : Ctx R) (s : TSState R) (i d : ℕ) : R :=
  gatherRow s.stack c.model_dim (stack2ptrsVal c s i) d

/-- The affine combination computed by ThinStack::recurrence on one batch
column: compose_W_l times the left child plus compose_W_r times the right
child, via two chained gemms (beta = 1 on the second).  The source leaves
the bias broadcast-add and the relu as TODOs, so neither appears here. -/
def compose [CommRing R] (c : Ctx R) (l r : ℕ → R) (d : ℕ) : R :=
  (∑ k ∈ Finset.range c.model_dim, c.compose_W_l d k * l k)
    + (∑ k ∈ Finset.range c.model_dim, c.compose_W_r d k * r k)

/-- ThinStack::recurrence: merge_output = W_l * stack_2_t + W_r * stack_1_t
(stack_2_t is the left child, stack_1_t the right child; bias and relu are
TODO in the source and not computed). -/
def recurrence [CommRing R] (c : Ctx R) (s1 s2 : ℕ → ℕ → R) (i d : ℕ) : R :=
  compose c (s2 i) (s1 i) d

/-- Modelled from the spec, section 4.3: the composition contract as the
spec states it, for comparison with `recurrence`: merged = compose_W_l * L
+ compose_W_r * R + bias, with rectification applied after accumulation. -/
def specCompose [LinearOrderedCommRing R] (c : Ctx R) (l r : ℕ → R) (d : ℕ) : R :=
  max 0 ((∑ k ∈ Finset.range c.model_dim, c.compose_W_l d k * l k)
    + (∑ k ∈ Finset.range c.model_dim, c.compose_W_r d k * r k)
    + c.compose_b d)

/-- ThinStack::mask_and_update_stack: the `switch_m` kernel (modelled from
the spec, section 4.2 select_by_mask) writes, for every example `i` and
feature `d`, either merge_value (transition 1) or push_value into the
block of `batch_size * model_dim` stack elements starting at
t * batch_size * model_dim; all other addresses are untouched. -/
def mask_and_update_stack (c : Ctx R) (t : ℕ) (push_value merge_value : ℕ → ℕ → R)
    (stack : ℤ → R) : ℤ → R :=
  fun a =>
    if (t : ℤ) * (c.batch_size * c.model_dim) ≤ a ∧
        a < ((t : ℤ) + 1) * (c.batch_size * c.model_dim) then
      let r : ℤ := a - (t : ℤ) * (c.batch_size * c.model_dim)
      let i : ℕ := (r / c.model_dim).toNat
      let d : ℕ := (r % c.model_dim).toNat
      if c.transitions t i = 1 then merge_value i d else push_value i d
    else stack a

/-- ThinStack::mask_and_update_cursors: two cublasSaxpy calls over the
first batch_size entries: cursors += 1; cursors -= 2 * transitions. -/
def mask_and_update_cursors (c : Ctx R) (t : ℕ) (cursors : ℕ → ℤ) : ℕ → ℤ :=
  fun i => if i < c.batch_size then cursors i + 1 - 2 * c.transitions t i else cursors i

/-- ThinStack::update_buffer_cur: two cublasSaxpy calls over the first
batch_size entries: buffer_cur += 1; buffer_cur -= transitions. -/
def update_buffer_cur (c : Ctx R) (t : ℕ) (bc : ℕ → ℤ) : ℕ → ℤ :=
  fun i => if i < c.batch_size then bc i + 1 - c.transitions t i else bc i

/-- Modelled from the spec, section 4.2 scatter_scalar: the
`set_subtensor1i_s` kernel writes the scalar `v` at flat queue address
idxs[i] + i * seq_length for every example `i`. -/
def set_subtensor1i_s (c : Ctx R) (v : ℤ) (idxs : ℕ → ℤ) (queue : ℤ → ℤ) : ℤ → ℤ :=
  fun a =>
    if ∃ i ∈ Finset.range c.batch_size, a = (i : ℤ) * c.seq_length + idxs i then v
    else queue a

/-- ThinStack::step, timestep `t`, in source order: gather buffer_top,
compute stack_2_ptrs from the queue, gather stack_1 and stack_2, run the
recurrence into merge_output, mask-write the stack block of timestep `t`,
update cursors, scatter the timestep index into the queue at the updated
cursors, and update buffer_cur. -/
def step [CommRing R] (c : Ctx R) (t : ℕ) (s : TSState R) : TSState R :=
  { stack := mask_and_update_stack c t (bufferTopVal c s)
      (recurrence c (stack1Val c s t) (stack2Val c s)) s.stack
    queue := set_subtensor1i_s c t (mask_and_update_cursors c t s.cursors) s.queue
    cursors := mask_and_update_cursors c t s.cursors
    buffer_cur_t := update_buffer_cur c t s.buffer_cur_t
    buffer_top_t := bufferTopVal c s
    stack_1_t := stack1Val c s t
    stack_2_ptrs := stack2ptrsVal c s
    stack_2_t := stack2Val c s
    merge_output := recurrence c (stack1Val c s t) (stack2Val c s) }

/-- ThinStack::zero: cudaMemset of stack (seq_length * batch_size *
model_dim floats), queue (batch_size * seq_length floats), cursors
(batch_size floats) and buffer_cur_t (batch_size floats) to zero; memory
outside those extents, and the per-step temporary containers, are
untouched. -/
def zero [CommRing R] (c : Ctx R) (s : TSState R) : TSState R :=
  { s with
    stack := fun a =>
      if 0 ≤ a ∧ a < ((c.seq_length * c.batch_size * c.model_dim : ℕ) : ℤ) then 0
      else s.stack a
    queue := fun a =>
      if 0 ≤ a ∧ a < ((c.batch_size * c.seq_length : ℕ) : ℤ) then 0 else s.queue a
    cursors := fun i => if i < c.batch_size then 0 else s.cursors i
    buffer_cur_t := fun i => if i < c.batch_size then 0 else s.buffer_cur_t i }

/-- Apply steps 0, 1, ..., n-1 of ThinStack::forward in order. -/
def runSteps [CommRing R] (c : Ctx R) : ℕ → TSState R → TSState R
  | 0, s => s
  | n + 1, s => step c n (runSteps c n s)

/-- ThinStack::forward: zero the core arrays, then run step t for
t = 0 ... seq_length - 1 in order. -/
def forward [CommRing R] (c : Ctx R) (s : TSState R) : TSState R :=
  runSteps c c.seq_length (zero c s)

/-- Reference per-example software shift-reduce stack over timestep
indices: `refStack c i t` is example i's stack (top first) after steps
0..t-1; a shift pushes the timestep, a reduce pops two entries and pushes
the timestep of the composed value. -/
def refStack (c : Ctx R) (i : ℕ) : ℕ → List ℕ
  | 0 => []
  | t + 1 =>
      if c.transitions t i = 1 then t :: (refStack c i t).drop 2
      else t :: refStack c i t

/-- Stack depth of example i after steps 0..t-1 of the reference
simulation. -/
def depth (c : Ctx R) (i t : ℕ) : ℕ :=
  (refStack c i t).length

/-- Number of shift transitions of example i among timesteps 0..t-1. -/
def shiftCount (c : Ctx R) (i : ℕ) : ℕ → ℕ
  | 0 => 0
  | t + 1 => shiftCount c i t + (if c.transitions t i = 1 then 0 else 1)

/-- Number of reduce transitions of example i among timesteps 0..t-1. -/
def reduceCount (c : Ctx R) (i : ℕ) : ℕ → ℕ
  | 0 => 0
  | t + 1 => reduceCount c i t + (if c.transitions t i = 1 then 1 else 0)

/-- The all-zero feature vector, used as the out-of-range default of the
reference simulation. -/
def vzero [CommRing R] : ℕ → R := fun _ => 0

/-- Column n of the flat input buffer for example i: the vector a shift
pushes after n prior shifts. -/
def bufVec (c : Ctx R) (i n : ℕ) : ℕ → R :=
  fun d => c.buffer (((n : ℤ) * c.batch_size + i) * c.model_dim + d)

/-- Reference per-example software stack of feature vectors (top first):
a shift pushes the next unconsumed buffer column, a reduce pops the top
two entries and pushes their composition (left child = second from top,
right child = top), composed exactly as ThinStack::recurrence does. -/
def refVStack [CommRing R] (c : Ctx R) (i : ℕ) : ℕ → List (ℕ → R)
  | 0 => []
  | t + 1 =>
      if c.transitions t i = 1 then
        compose c ((refVStack c i t).getD 1 vzero) ((refVStack c i t).getD 0 vzero)
          :: (refVStack c i t).drop 2
      else
        bufVec c i (shiftCount c i t) :: refVStack c i t

/-- The vector the reference simulation pushes at timestep t (the value the
code writes into stack row t). -/
def pushedVal [CommRing R] (c : Ctx R) (i t : ℕ) : ℕ → R :=
  (refVStack c i (t + 1)).getD 0 vzero

/-- Well-formed transitions input: every label is 0 or 1, and every reduce
happens at stack depth at least 2 (in particular the transition at t = 0
is a shift for every example). -/
def WellFormed (c : Ctx R) : Prop :=
  ∀ i < c.batch_size, ∀ t < c.seq_length,
    (c.transitions t i = 0 ∨ c.transitions t i = 1) ∧
    (c.transitions t i = 1 → 2 ≤ depth c i t)

instance (c : Ctx R) : Decidable (WellFormed c) := by
  unfold WellFormed; infer_instance

/-- The state invariant relating the device arrays after steps 0..t-1 of
ThinStack::forward to the per-example reference simulation: cursors holds
the reference stack depth, buffer_cur_t the number of shifts so far, queue
slot k of example i the timestep of the k-th-from-bottom live stack entry,
and stack row j the vector pushed at timestep j. -/
def Inv [CommRing R] (c : Ctx R) (s₀ : TSState R) (t : ℕ) : Prop :=
  ∀ i < c.batch_size,
    ((runSteps c t (zero c s₀)).cursors i = (depth c i t : ℤ)) ∧
    ((runSteps c t (zero c s₀)).buffer_cur_t i = (shiftCount c i t : ℤ)) ∧
    (∀ k : ℕ, 1 ≤ k → k ≤ depth c i t →
      (runSteps c t (zero c s₀)).queue ((i : ℤ) * c.seq_length + k)
        = ((refStack c i t).getD (depth c i t - k) 0 : ℤ)) ∧
    (∀ j, j < t → ∀ d, d < c.model_dim →
      (runSteps c t (zero c s₀)).stack (((j : ℤ) * c.batch_size + i) * c.model_dim + d)
        = pushedVal c i j d)

/-- The all-zero initial device memory used by the concrete scenarios. -/
def zState : TSState ℤ :=
  { stack := fun _ => 0
    queue := fun _ => 0
    cursors := fun _ => 0
    buffer_cur_t := fun _ => 0
    buffer_top_t := fun _ _ => 0
    stack_1_t := fun _ _ => 0
    stack_2_ptrs := fun _ => 0
    stack_2_t := fun _ _ => 0
    merge_output := fun _ _ => 0 }

/-- End-to-end scenario of the spec, section 8: batch 1, dimension 2,
three timesteps, buffer columns (1,1), (2,2), (3,3), transitions shift,
shift, reduce; compose_W_l the identity, compose_W_r twice the identity,
bias 10 everywhere. -/
def cDemo : Ctx ℤ :=
  { batch_size := 1
    model_dim := 2
    seq_length := 3
    compose_W_l := fun d k => if d = k then 1 else 0
    compose_W_r := fun d k => if d = k then 2 else 0
    compose_b := fun _ => 10
    buffer := fun a =>
      if a = 0 ∨ a = 1 then 1 else if a = 2 ∨ a = 3 then 2
      else if a = 4 ∨ a = 5 then 3 else 0
    transitions := fun t _ => if t = 2 then 1 else 0 }

/-- Minimal context with zero composition weights and bias one, used to
compare the recurrence of the source against the composition contract of
the spec. -/
def cBias : Ctx ℤ :=
  { batch_size := 1
    model_dim := 1
    seq_length := 1
    compose_W_l := fun _ _ => 0
    compose_W_r := fun _ _ => 0
    compose_b := fun _ => 1
    buffer := fun _ => 0
    transitions := fun _ _ => 0 }

/-- Malformed-input scenario: batch 1, dimension 1, two timesteps, with a
reduce at t = 0 (violating the well-formedness precondition). -/
def cBad : Ctx ℤ :=
  { batch_size := 1
    model_dim := 1
    seq_length := 2
    compose_W_l := fun _ _ => 1
    compose_W_r := fun _ _ => 1
    compose_b := fun _ => 0
    buffer := fun _ => 0
    transitions := fun t _ => if t = 0 then 1 else 0 }

/-- Ambient device memory holding 7 at every address below the stack
allocation; it agrees with zState at every address inside the allocated
extents of every array. -/
def junkBelow : TSState ℤ :=
  { zState with stack := fun a => if a < 0 then 7 else 0 }

/-- Initial state whose per-step temporary containers hold the junk value
7, as left by cudaMalloc before any step has run. -/
def junkScratch : TSState ℤ :=
  { zState with buffer_top_t := fun _ _ => 7, merge_output := fun _ _ => 7 }


end SpinnThinStack

namespace SpinnThinStack

/-! Helper lemmas about the embedding. -/

variable {R : Type}

theorem runSteps_succ [CommRing R] (c : Ctx R) (n : ℕ) (s : TSState R) :
    runSteps c (n + 1) s = step c n (runSteps c n s) := rfl

theorem step_cursors_eq [CommRing R] (c : Ctx R) (t : ℕ) (s : TSState R) {i : ℕ}
    (hi : i < c.batch_size) :
    (step c t s).cursors i = s.cursors i + 1 - 2 * c.transitions t i := by
  simp [step, mask_and_update_cursors, hi]

theorem step_buffer_cur_eq [CommRing R] (c : Ctx R) (t : ℕ) (s : TSState R) {i : ℕ}
    (hi : i < c.batch_size) :
    (step c t s).buffer_cur_t i = s.buffer_cur_t i + 1 - c.transitions t i := by
  simp [step, update_buffer_cur, hi]

/-- Address arithmetic: the flat address of feature d of example i in stack
row j lies strictly below the block of row t whenever j < t. -/
theorem rowAddr_lt_block {B D j t i d : ℕ} (hj : j < t) (hi : i < B) (hd : d < D) :
    (j * B + i) * D + d < t * (B * D) := by
  have h1 : (j * B + i) * D + d < (j * B + i + 1) * D := by
    rw [Nat.succ_mul]
    omega
  have h2 : (j * B + i + 1) * D ≤ ((j + 1) * B) * D := by
    apply Nat.mul_le_mul_right
    rw [Nat.succ_mul]
    omega
  have h3 : ((j + 1) * B) * D ≤ t * (B * D) := by
    rw [mul_assoc]
    exact Nat.mul_le_mul_right (B * D) hj
  omega

/-- Address arithmetic: the flat address of feature d of example i in stack
row j lies at or above the block of row t whenever j ≥ t. -/
theorem rowAddr_ge_block {B D j t i d : ℕ} (hj : t ≤ j) :
    t * (B * D) ≤ (j * B + i) * D + d := by
  have h1 : t * (B * D) ≤ j * (B * D) := Nat.mul_le_mul_right (B * D) hj
  have h2 : j * (B * D) ≤ (j * B + i) * D + d := by
    calc j * (B * D) = (j * B) * D := by ring
    _ ≤ (j * B + i) * D := Nat.mul_le_mul_right D (Nat.le_add_right _ _)
    _ ≤ (j * B + i) * D + d := Nat.le_add_right _ _
  omega

/-- Writes of `mask_and_update_stack` never touch addresses outside the
block of row t. -/
theorem mask_and_update_stack_outside (c : Ctx R) (t : ℕ)
    (p m : ℕ → ℕ → R) (st : ℤ → R) {a : ℤ}
    (h : a < (t : ℤ) * (c.batch_size * c.model_dim) ∨
      ((t : ℤ) + 1) * (c.batch_size * c.model_dim) ≤ a) :
    mask_and_update_stack c t p m st a = st a := by
  unfold mask_and_update_stack
  rw [if_neg]
  rintro ⟨h1, h2⟩
  rcases h with h | h
  · linarith
  · linarith

/-- Value written by `mask_and_update_stack` at feature d of example i of
row t. -/
theorem mask_and_update_stack_at (c : Ctx R) (t : ℕ)
    (p m : ℕ → ℕ → R) (st : ℤ → R) {i d : ℕ}
    (hi : i < c.batch_size) (hd : d < c.model_dim) :
    mask_and_update_stack c t p m st (((t : ℤ) * c.batch_size + i) * c.model_dim + d)
      = if c.transitions t i = 1 then m i d else p i d := by
  have hD : 0 < c.model_dim := lt_of_le_of_lt (Nat.zero_le d) hd
  have key : (((t : ℤ) * c.batch_size + i) * c.model_dim + d)
      = (t : ℤ) * (c.batch_size * c.model_dim) + ((i : ℤ) * c.model_dim + d) := by ring
  have hlow : (0 : ℤ) ≤ (i : ℤ) * c.model_dim + d := by positivity
  have hupp : (i : ℤ) * c.model_dim + d < (c.batch_size : ℤ) * c.model_dim := by
    have hn : i * c.model_dim + d < c.batch_size * c.model_dim := by
      have := rowAddr_lt_block (B := c.batch_size) (D := c.model_dim)
        (j := 0) (t := 1) (i := i) (d := d) Nat.one_pos hi hd
      simpa using this
    exact_mod_cast hn
  unfold mask_and_update_stack
  rw [key, if_pos]
  · have hr : (t : ℤ) * (c.batch_size * c.model_dim) + ((i : ℤ) * c.model_dim + d)
        - (t : ℤ) * (c.batch_size * c.model_dim) = (i : ℤ) * c.model_dim + d := by ring
    have hdiv : (((i : ℤ) * c.model_dim + d) / c.model_dim) = i := by
      have h1 : ((d : ℤ) + (c.model_dim : ℤ) * i) / c.model_dim = (d : ℤ) / c.model_dim + i :=
        Int.add_mul_ediv_left d i (by exact_mod_cast hD.ne.symm)
      have h2 : (d : ℤ) / c.model_dim = 0 :=
        Int.ediv_eq_zero_of_lt (by positivity) (by exact_mod_cast hd)
      calc ((i : ℤ) * c.model_dim + d) / c.model_dim
          = ((d : ℤ) + (c.model_dim : ℤ) * i) / c.model_dim := by ring_nf
        _ = (d : ℤ) / c.model_dim + i := h1
        _ = i := by rw [h2]; ring
    have hmod : (((i : ℤ) * c.model_dim + d) % c.model_dim) = d := by
      have h1 : ((d : ℤ) + (c.model_dim : ℤ) * i) % c.model_dim = (d : ℤ) % c.model_dim := by
        have := Int.add_mul_emod_self_left (a := (d : ℤ)) (b := (c.model_dim : ℤ)) (c := (i : ℤ))
        exact this
      have h2 : (d : ℤ) % c.model_dim = d :=
        Int.emod_eq_of_lt (by positivity) (by exact_mod_cast hd)
      calc ((i : ℤ) * c.model_dim + d) % c.model_dim
          = ((d : ℤ) + (c.model_dim : ℤ) * i) % c.model_dim := by ring_nf
        _ = d := by rw [h1, h2]
    simp only [hr, hdiv, hmod, Int.toNat_ofNat, Int.toNat_natCast]
  · constructor
    · linarith
    · have : ((t : ℤ) + 1) * (c.batch_size * c.model_dim)
          = (t : ℤ) * (c.batch_size * c.model_dim) + (c.batch_size : ℤ) * c.model_dim := by ring
      rw [this]
      linarith

end SpinnThinStack

namespace SpinnThinStack

variable {R : Type}

/-- List access through a drop: element j of `l.drop n` is element n + j of
`l`. -/
theorem getD_drop {α : Type} (n : ℕ) (l : List α) (j : ℕ) (d : α) :
    (l.drop n).getD j d = l.getD (n + j) d := by
  induction n generalizing l with
  | zero => simp
  | succ n ih =>
      cases l with
      | nil => simp
      | cons a l =>
          have : n + 1 + j = (n + j) + 1 := by omega
          simp [List.drop_succ_cons, ih, this, List.getD_cons_succ]

/-- A getD access within bounds returns a member of the list. -/
theorem getD_mem {α : Type} (l : List α) (n : ℕ) (d : α) (h : n < l.length) :
    l.getD n d ∈ l := by
  induction l generalizing n with
  | nil => simp at h
  | cons a l ih =>
      cases n with
      | zero => simp [List.getD_cons_zero]
      | succ n =>
          have hn : n < l.length := by simpa using h
          simp only [List.getD_cons_succ]
          exact List.mem_cons_of_mem a (ih n hn)

/-- Unfolding equation of refStack at a successor timestep. -/
theorem refStack_succ (c : Ctx R) (i t : ℕ) :
    refStack c i (t + 1) =
      if c.transitions t i = 1 then t :: (refStack c i t).drop 2
      else t :: refStack c i t := rfl

/-- Unfolding equation of refVStack at a successor timestep. -/
theorem refVStack_succ [CommRing R] (c : Ctx R) (i t : ℕ) :
    refVStack c i (t + 1) =
      if c.transitions t i = 1 then
        compose c ((refVStack c i t).getD 1 vzero) ((refVStack c i t).getD 0 vzero)
          :: (refVStack c i t).drop 2
      else bufVec c i (shiftCount c i t) :: refVStack c i t := rfl

/-- The reference stack never holds more entries than steps taken. -/
theorem depth_le (c : Ctx R) (i t : ℕ) : depth c i t ≤ t := by
  induction t with
  | zero => simp [depth, refStack]
  | succ t ih =>
      unfold depth at ih ⊢
      rw [refStack_succ]
      by_cases h : c.transitions t i = 1
      · rw [if_pos h, List.length_cons, List.length_drop]
        omega
      · rw [if_neg h, List.length_cons]
        omega

/-- Every timestep recorded on the reference stack is strictly earlier than
the current timestep. -/
theorem refStack_mem_lt (c : Ctx R) (i t : ℕ) :
    ∀ x ∈ refStack c i t, x < t := by
  induction t with
  | zero => simp [refStack]
  | succ t ih =>
      intro x hx
      rw [refStack_succ] at hx
      by_cases h : c.transitions t i = 1
      · rw [if_pos h] at hx
        rcases List.mem_cons.mp hx with h1 | h1
        · omega
        · have := ih x (List.drop_subset 2 _ h1)
          omega
      · rw [if_neg h] at hx
        rcases List.mem_cons.mp hx with h1 | h1
        · omega
        · have := ih x h1
          omega

/-- How the reference depth evolves across one step, as an integer
identity, for well-formed inputs. -/
theorem depth_succ_int (c : Ctx R) {i t : ℕ}
    (h01 : c.transitions t i = 0 ∨ c.transitions t i = 1)
    (hred : c.transitions t i = 1 → 2 ≤ depth c i t) :
    (depth c i (t + 1) : ℤ) = (depth c i t : ℤ) + 1 - 2 * c.transitions t i := by
  unfold depth
  rw [refStack_succ]
  rcases h01 with h | h
  · have hne : c.transitions t i ≠ 1 := by rw [h]; decide
    rw [if_neg hne, List.length_cons, h]
    push_cast
    ring
  · have h2 := hred h
    unfold depth at h2
    rw [if_pos h, List.length_cons, List.length_drop, h]
    have he : (refStack c i t).length - 2 + 1 = (refStack c i t).length - 1 := by omega
    rw [he, Nat.cast_sub (by omega : 1 ≤ (refStack c i t).length)]
    push_cast
    ring

/-- After at least one step the reference stack is nonempty (both branches
push). -/
theorem depth_pos (c : Ctx R) (i t : ℕ) :
    1 ≤ depth c i (t + 1) := by
  unfold depth
  rw [refStack_succ]
  by_cases h : c.transitions t i = 1
  · rw [if_pos h, List.length_cons]
    omega
  · rw [if_neg h, List.length_cons]
    omega

/-- The top of the reference stack after t + 1 steps is always timestep
t. -/
theorem refStack_head (c : Ctx R) (i t : ℕ) :
    (refStack c i (t + 1)).getD 0 0 = t := by
  rw [refStack_succ]
  by_cases h : c.transitions t i = 1
  · rw [if_pos h, List.getD_cons_zero]
  · rw [if_neg h, List.getD_cons_zero]

/-- The vector-valued and timestep-valued reference stacks always have the
same length. -/
theorem refVStack_length [CommRing R] (c : Ctx R) (i t : ℕ) :
    (refVStack c i t).length = (refStack c i t).length := by
  induction t with
  | zero => simp [refVStack, refStack]
  | succ t ih =>
      rw [refStack_succ, refVStack_succ]
      by_cases h : c.transitions t i = 1
      · rw [if_pos h, if_pos h, List.length_cons, List.length_cons,
          List.length_drop, List.length_drop, ih]
      · rw [if_neg h, if_neg h, List.length_cons, List.length_cons, ih]

/-- Entry j of the vector-valued reference stack is exactly the vector that
was pushed at the timestep recorded at entry j of the timestep-valued
reference stack. -/
theorem refVStack_link [CommRing R] (c : Ctx R) (i t : ℕ) :
    ∀ j < (refStack c i t).length,
      (refVStack c i t).getD j vzero = pushedVal c i ((refStack c i t).getD j 0) := by
  induction t with
  | zero => simp [refStack]
  | succ t ih =>
      intro j hj
      rw [refStack_succ] at hj
      by_cases h : c.transitions t i = 1
      · rw [if_pos h] at hj
        cases j with
        | zero =>
            rw [refStack_succ, refVStack_succ, if_pos h, if_pos h,
              List.getD_cons_zero, List.getD_cons_zero]
            unfold pushedVal
            rw [refVStack_succ, if_pos h, List.getD_cons_zero]
        | succ j =>
            rw [refStack_succ, refVStack_succ, if_pos h, if_pos h,
              List.getD_cons_succ, List.getD_cons_succ, getD_drop, getD_drop]
            apply ih
            rw [List.length_cons, List.length_drop] at hj
            omega
      · rw [if_neg h] at hj
        cases j with
        | zero =>
            rw [refStack_succ, refVStack_succ, if_neg h, if_neg h,
              List.getD_cons_zero, List.getD_cons_zero]
            unfold pushedVal
            rw [refVStack_succ, if_neg h, List.getD_cons_zero]
        | succ j =>
            rw [refStack_succ, refVStack_succ, if_neg h, if_neg h,
              List.getD_cons_succ, List.getD_cons_succ]
            apply ih
            rw [List.length_cons] at hj
            omega

/-- Two flat queue addresses i * T + k with per-example slots in [1, T]
coincide only for the same example and slot. -/
theorem queue_addr_inj {T i i' k k' : ℤ}
    (hk1 : 1 ≤ k) (hkT : k ≤ T) (hk1' : 1 ≤ k') (hkT' : k' ≤ T)
    (h : i * T + k = i' * T + k') : i = i' ∧ k = k' := by
  have hT : 1 ≤ T := le_trans hk1 hkT
  have key : (i - i') * T = k' - k := by ring_nf; linarith
  rcases lt_trichotomy i i' with hlt | heq | hgt
  · exfalso
    have h1 : 1 ≤ i' - i := by omega
    have h2 : T ≤ (i' - i) * T := by
      calc T = 1 * T := (one_mul T).symm
      _ ≤ (i' - i) * T := by
        apply mul_le_mul_of_nonneg_right h1
        omega
    have h3 : (i' - i) * T = k - k' := by ring_nf; linarith
    omega
  · constructor
    · exact heq
    · rw [heq] at h; omega
  · exfalso
    have h1 : 1 ≤ i - i' := by omega
    have h2 : T ≤ (i - i') * T := by
      calc T = 1 * T := (one_mul T).symm
      _ ≤ (i - i') * T := by
        apply mul_le_mul_of_nonneg_right h1
        omega
    omega

end SpinnThinStack

namespace SpinnThinStack

variable {R : Type}

/-- Unfolding equation of shiftCount at a successor timestep. -/
theorem shiftCount_succ (c : Ctx R) (i t : ℕ) :
    shiftCount c i (t + 1)
      = shiftCount c i t + (if c.transitions t i = 1 then 0 else 1) := rfl

/-- Unfolding equation of reduceCount at a successor timestep. -/
theorem reduceCount_succ (c : Ctx R) (i t : ℕ) :
    reduceCount c i (t + 1)
      = reduceCount c i t + (if c.transitions t i = 1 then 1 else 0) := rfl

/-- Depth after a shift step. -/
theorem depth_succ_shift (c : Ctx R) {i t : ℕ} (h : c.transitions t i ≠ 1) :
    depth c i (t + 1) = depth c i t + 1 := by
  unfold depth
  rw [refStack_succ, if_neg h, List.length_cons]

/-- Depth after a reduce step. -/
theorem depth_succ_reduce (c : Ctx R) {i t : ℕ} (h : c.transitions t i = 1)
    (h2 : 2 ≤ depth c i t) :
    depth c i (t + 1) = depth c i t - 1 := by
  unfold depth at h2 ⊢
  rw [refStack_succ, if_pos h, List.length_cons, List.length_drop]
  omega

/-- At a reduce step of a well-formed input, the two gathers of
ThinStack::step retrieve exactly the second-from-top and top entries of
the reference software stack. -/
theorem gathers_at_reduce [CommRing R] (c : Ctx R) (s₀ : TSState R)
    (hwf : WellFormed c) (t : ℕ) (ht : t < c.seq_length) (hInv : Inv c s₀ t)
    {i : ℕ} (hi : i < c.batch_size) (hred : c.transitions t i = 1) :
    (∀ d < c.model_dim,
      stack2Val c (runSteps c t (zero c s₀)) i d = (refVStack c i t).getD 1 vzero d) ∧
    (∀ d < c.model_dim,
      stack1Val c (runSteps c t (zero c s₀)) t i d = (refVStack c i t).getD 0 vzero d) := by
  obtain ⟨hcur, hbc, hq, hstk⟩ := hInv i hi
  have hdep2 : 2 ≤ depth c i t := (hwf i hi t ht).2 hred
  have hdlen : 2 ≤ (refStack c i t).length := hdep2
  have hdlet := depth_le c i t
  have haddr : queueGatherAddr c (runSteps c t (zero c s₀)) i
      = (i : ℤ) * c.seq_length + ((depth c i t - 1 : ℕ) : ℤ) := by
    unfold queueGatherAddr
    rw [hcur]
    have : ((depth c i t - 1 : ℕ) : ℤ) = (depth c i t : ℤ) - 1 := by omega
    rw [this]
  have hqv : (runSteps c t (zero c s₀)).queue (queueGatherAddr c (runSteps c t (zero c s₀)) i)
      = (((refStack c i t).getD 1 0 : ℕ) : ℤ) := by
    rw [haddr, hq (depth c i t - 1) (by omega) (by omega)]
    have : depth c i t - (depth c i t - 1) = 1 := by omega
    rw [this]
  have hs₂lt : (refStack c i t).getD 1 0 < t :=
    refStack_mem_lt c i t _ (getD_mem _ 1 0 (by omega))
  have ht2 : 2 ≤ t := le_trans hdep2 hdlet
  constructor
  · intro d hd
    unfold stack2Val gatherRow stack2ptrsVal
    rw [hqv, hstk _ hs₂lt d hd, refVStack_link c i t 1 (by omega)]
  · intro d hd
    unfold stack1Val gatherRow stack1RowOff
    have hcast : ((t : ℤ) - 1) = ((t - 1 : ℕ) : ℤ) := by omega
    rw [hcast, hstk (t - 1) (by omega) d hd,
      refVStack_link c i t 0 (by omega)]
    have hh : (refStack c i t).getD 0 0 = t - 1 := by
      obtain ⟨t', rfl⟩ : ∃ t', t = t' + 1 := ⟨t - 1, by omega⟩
      rw [refStack_head]
      omega
    rw [hh]

end SpinnThinStack

namespace SpinnThinStack

variable {R : Type}

/-- Main invariant: after any prefix of steps of a well-formed input, the
device state of ThinStack refines the per-example reference shift-reduce
simulation. -/
theorem invariant_steps [CommRing R] (c : Ctx R) (s₀ : TSState R)
    (hwf : WellFormed c) :
    ∀ t, t ≤ c.seq_length → Inv c s₀ t := by
  intro t
  induction t with
  | zero =>
      intro _ i hi
      refine ⟨?_, ?_, ?_, ?_⟩
      · show (zero c s₀).cursors i = (depth c i 0 : ℤ)
        simp [zero, hi, depth, refStack]
      · show (zero c s₀).buffer_cur_t i = (shiftCount c i 0 : ℤ)
        simp [zero, hi, shiftCount]
      · intro k hk1 hk2
        exfalso
        have : depth c i 0 = 0 := by simp [depth, refStack]
        omega
      · intro j hj
        exact absurd hj (Nat.not_lt_zero j)
  | succ t ih =>
      intro ht1
      have ht : t < c.seq_length := ht1
      have hIt := ih (le_of_lt ht)
      intro i hi
      obtain ⟨hcur, hbc, hq, hstk⟩ := hIt i hi
      have hwfi := hwf i hi t ht
      have hcurAll : ∀ i', i' < c.batch_size →
          mask_and_update_cursors c t (runSteps c t (zero c s₀)).cursors i'
            = (depth c i' (t + 1) : ℤ) := by
        intro i' hi'
        obtain ⟨hcur', _, _, _⟩ := hIt i' hi'
        have hwfi' := hwf i' hi' t ht
        show (step c t (runSteps c t (zero c s₀))).cursors i' = _
        rw [step_cursors_eq c t _ hi', hcur', ← depth_succ_int c hwfi'.1 hwfi'.2]
      refine ⟨?_, ?_, ?_, ?_⟩
      · exact hcurAll i hi
      · show (step c t (runSteps c t (zero c s₀))).buffer_cur_t i = _
        rw [step_buffer_cur_eq c t _ hi, hbc, shiftCount_succ]
        rcases hwfi.1 with h | h
        · rw [h, if_neg (by decide : (0 : ℤ) ≠ 1)]
          push_cast
          ring
        · rw [h, if_pos rfl]
          push_cast
          ring
      · intro k hk1 hk2
        show set_subtensor1i_s c t
          (mask_and_update_cursors c t (runSteps c t (zero c s₀)).cursors)
          (runSteps c t (zero c s₀)).queue ((i : ℤ) * c.seq_length + k) = _
        unfold set_subtensor1i_s
        by_cases hcase : k = depth c i (t + 1)
        · rw [if_pos ⟨i, Finset.mem_range.mpr hi, by rw [hcurAll i hi, hcase]⟩, hcase]
          have hidx : depth c i (t + 1) - depth c i (t + 1) = 0 := by omega
          rw [hidx, refStack_head]
        · rw [if_neg ?nex]
          case nex =>
            rintro ⟨i', hi'mem, heq⟩
            have hi' := Finset.mem_range.mp hi'mem
            rw [hcurAll i' hi'] at heq
            have hb1 : (1 : ℤ) ≤ (k : ℤ) := by exact_mod_cast hk1
            have hb2 : (k : ℤ) ≤ (c.seq_length : ℤ) := by
              have : k ≤ c.seq_length := le_trans hk2 (le_trans (depth_le c i (t + 1)) ht1)
              exact_mod_cast this
            have hb3 : (1 : ℤ) ≤ (depth c i' (t + 1) : ℤ) := by
              exact_mod_cast depth_pos c i' t
            have hb4 : (depth c i' (t + 1) : ℤ) ≤ (c.seq_length : ℤ) := by
              have : depth c i' (t + 1) ≤ c.seq_length :=
                le_trans (depth_le c i' (t + 1)) ht1
              exact_mod_cast this
            obtain ⟨hii, hkk⟩ := queue_addr_inj hb1 hb2 hb3 hb4 heq
            have : i = i' := by exact_mod_cast hii
            subst this
            exact hcase (by exact_mod_cast hkk)
          rcases hwfi.1 with h | h
          · have hne : c.transitions t i ≠ 1 := by rw [h]; decide
            have hd1 := depth_succ_shift c hne
            rw [hq k hk1 (by omega), refStack_succ, if_neg hne]
            have hidx : depth c i (t + 1) - k = (depth c i t - k) + 1 := by omega
            rw [hidx, List.getD_cons_succ]
          · have h2 := hwfi.2 h
            have hd1 := depth_succ_reduce c h h2
            rw [hq k hk1 (by omega), refStack_succ, if_pos h]
            have hidx : depth c i (t + 1) - k = (depth c i t - 2 - k) + 1 := by omega
            rw [hidx, List.getD_cons_succ, getD_drop]
            have hidx2 : 2 + (depth c i t - 2 - k) = depth c i t - k := by omega
            rw [hidx2]
      · intro j hj d hd
        show mask_and_update_stack c t (bufferTopVal c (runSteps c t (zero c s₀)))
          (recurrence c (stack1Val c (runSteps c t (zero c s₀)) t)
            (stack2Val c (runSteps c t (zero c s₀))))
          (runSteps c t (zero c s₀)).stack
          (((j : ℤ) * c.batch_size + i) * c.model_dim + d) = pushedVal c i j d
        rcases Nat.lt_succ_iff_lt_or_eq.mp hj with hjt | rfl
        · rw [mask_and_update_stack_outside]
          · exact hstk j hjt d hd
          · left
            have hn := rowAddr_lt_block (t := t) hjt hi hd
            exact_mod_cast hn
        · rw [mask_and_update_stack_at c j _ _ _ hi hd]
          unfold pushedVal
          rw [refVStack_succ]
          by_cases h : c.transitions j i = 1
          · rw [if_pos h, if_pos h, List.getD_cons_zero]
            have hg := gathers_at_reduce c s₀ hwf j ht hIt hi h
            unfold recurrence compose
            congr 1
            · apply Finset.sum_congr rfl
              intro k hk
              rw [hg.1 k (Finset.mem_range.mp hk)]
            · apply Finset.sum_congr rfl
              intro k hk
              rw [hg.2 k (Finset.mem_range.mp hk)]
          · rw [if_neg h, if_neg h, List.getD_cons_zero]
            unfold bufferTopVal gatherRow bufVec
            rw [hbc]

end SpinnThinStack

namespace SpinnThinStack

variable {R : Type}

/-- The buffer-read accumulator after n steps equals the number of shift
transitions so far, whenever all transition labels seen are 0 or 1. -/
theorem run_buffer_cur_count [CommRing R] (c : Ctx R) (s₀ : TSState R) {i : ℕ}
    (hi : i < c.batch_size) :
    ∀ n, (∀ s < n, c.transitions s i = 0 ∨ c.transitions s i = 1) →
      (runSteps c n (zero c s₀)).buffer_cur_t i = (shiftCount c i n : ℤ) := by
  intro n
  induction n with
  | zero =>
      intro _
      show (zero c s₀).buffer_cur_t i = _
      simp [zero, hi, shiftCount]
  | succ n ih =>
      intro h01
      show (step c n (runSteps c n (zero c s₀))).buffer_cur_t i = _
      rw [step_buffer_cur_eq c n _ hi, ih (fun s hs => h01 s (by omega)),
        shiftCount_succ]
      rcases h01 n (by omega) with h | h
      · rw [h, if_neg (by decide : (0 : ℤ) ≠ 1)]
        push_cast
        ring
      · rw [h, if_pos rfl]
        push_cast
        ring

/-- The cursors accumulator after n steps equals shifts minus reduces,
whenever all transition labels seen are 0 or 1. -/
theorem run_cursors_count [CommRing R] (c : Ctx R) (s₀ : TSState R) {i : ℕ}
    (hi : i < c.batch_size) :
    ∀ n, (∀ s < n, c.transitions s i = 0 ∨ c.transitions s i = 1) →
      (runSteps c n (zero c s₀)).cursors i
        = (shiftCount c i n : ℤ) - (reduceCount c i n : ℤ) := by
  intro n
  induction n with
  | zero =>
      intro _
      show (zero c s₀).cursors i = _
      simp [zero, hi, shiftCount, reduceCount]
  | succ n ih =>
      intro h01
      show (step c n (runSteps c n (zero c s₀))).cursors i = _
      rw [step_cursors_eq c n _ hi, ih (fun s hs => h01 s (by omega)),
        shiftCount_succ, reduceCount_succ]
      rcases h01 n (by omega) with h | h
      · rw [h, if_neg (by decide : (0 : ℤ) ≠ 1), if_neg (by decide : (0 : ℤ) ≠ 1)]
        push_cast
        ring
      · rw [h, if_pos rfl, if_pos rfl]
        push_cast
        ring

end SpinnThinStack

namespace SpinnThinStack

variable {R : Type}

/-- C1: for every well-formed Transitions input, at every timestep with a
reduce for example i, the left-child row gathered through the computed
stack_2_ptrs (queue[cursor - 1] rescaled to a flat stack offset) equals
the second-from-top entry of the per-example reference software
shift-reduce stack, and the stack_1 gather equals its top entry, so each
reduce composes exactly the two entries a software stack would pop. -/
theorem c1_reduce_gathers_refine_reference [CommRing R] (c : Ctx R)
    (s₀ : TSState R) (hwf : WellFormed c) {i t : ℕ} (hi : i < c.batch_size)
    (ht : t < c.seq_length) (hred : c.transitions t i = 1) :
    ∀ d < c.model_dim,
      (runSteps c (t + 1) (zero c s₀)).stack_2_t i d
          = (refVStack c i t).getD 1 vzero d ∧
      (runSteps c (t + 1) (zero c s₀)).stack_1_t i d
          = (refVStack c i t).getD 0 vzero d := by
  have hInv := invariant_steps c s₀ hwf t (le_of_lt ht)
  have hg := gathers_at_reduce c s₀ hwf t ht hInv hi hred
  intro d hd
  exact ⟨hg.1 d hd, hg.2 d hd⟩

/-- Witness for C1 on the end-to-end scenario: the reduce at t = 2
gathers exactly the two entries of the reference stack. -/
theorem c1_reduce_gathers_refine_reference_witness :
    WellFormed cDemo ∧ 0 < cDemo.batch_size ∧ 2 < cDemo.seq_length ∧
    cDemo.transitions 2 0 = 1 ∧ 0 < cDemo.model_dim ∧
    ((runSteps cDemo 3 (zero cDemo zState)).stack_2_t 0 0
        = (refVStack cDemo 0 2).getD 1 vzero 0 ∧
      (runSteps cDemo 3 (zero cDemo zState)).stack_1_t 0 0
        = (refVStack cDemo 0 2).getD 0 vzero 0) :=
  ⟨by decide, by decide, by decide, by decide, by decide,
    c1_reduce_gathers_refine_reference cDemo zState (by decide)
      (by decide) (by decide) (by decide) 0 (by decide)⟩

/-- C2: the per-example buffer-read cursor (buffer_cur_t) after processing
timestep t equals the number of shift transitions among timesteps 0..t
inclusive, and every step performs cursor += 1 - transition. -/
theorem c2_cursor_counts_shifts [CommRing R] (c : Ctx R) (s₀ : TSState R)
    {i : ℕ} (hi : i < c.batch_size) (t : ℕ)
    (h01 : ∀ s ≤ t, c.transitions s i = 0 ∨ c.transitions s i = 1) :
    (runSteps c (t + 1) (zero c s₀)).buffer_cur_t i = (shiftCount c i (t + 1) : ℤ) ∧
    (∀ (u : ℕ) (s : TSState R),
      (step c u s).buffer_cur_t i = s.buffer_cur_t i + 1 - c.transitions u i) := by
  constructor
  · exact run_buffer_cur_count c s₀ hi (t + 1) (fun s hs => h01 s (by omega))
  · intro u s
    exact step_buffer_cur_eq c u s hi

/-- Witness for C2 on the end-to-end scenario: after the three steps
(shift, shift, reduce) the buffer cursor equals the 2 shifts seen. -/
theorem c2_cursor_counts_shifts_witness :
    0 < cDemo.batch_size ∧
    (∀ s ≤ 2, cDemo.transitions s 0 = 0 ∨ cDemo.transitions s 0 = 1) ∧
    (runSteps cDemo 3 (zero cDemo zState)).buffer_cur_t 0
      = (shiftCount cDemo 0 3 : ℤ) ∧
    (step cDemo 0 zState).buffer_cur_t 0
      = zState.buffer_cur_t 0 + 1 - cDemo.transitions 0 0 :=
  ⟨by decide, by decide,
    (c2_cursor_counts_shifts cDemo zState (by decide) 2 (by decide)).1,
    (c2_cursor_counts_shifts cDemo zState (by decide) 2 (by decide)).2 0 zState⟩

/-- C10: the state variable cursors accumulates shifts minus reduces (the
stack depth), each step adding 1 - 2*transition, while the separate
accumulator buffer_cur_t (updated by 1 - transition) holds the buffer-read
offset. -/
theorem c10_cursors_track_depth [CommRing R] (c : Ctx R) (s₀ : TSState R)
    {i : ℕ} (hi : i < c.batch_size) (t : ℕ)
    (h01 : ∀ s ≤ t, c.transitions s i = 0 ∨ c.transitions s i = 1) :
    (runSteps c (t + 1) (zero c s₀)).cursors i
        = (shiftCount c i (t + 1) : ℤ) - (reduceCount c i (t + 1) : ℤ) ∧
    (∀ (u : ℕ) (s : TSState R),
      (step c u s).cursors i = s.cursors i + 1 - 2 * c.transitions u i) ∧
    (∀ (u : ℕ) (s : TSState R),
      (step c u s).buffer_cur_t i = s.buffer_cur_t i + 1 - c.transitions u i) := by
  refine ⟨?_, ?_, ?_⟩
  · exact run_cursors_count c s₀ hi (t + 1) (fun s hs => h01 s (by omega))
  · intro u s
    exact step_cursors_eq c u s hi
  · intro u s
    exact step_buffer_cur_eq c u s hi

/-- Witness for C10 on the end-to-end scenario: after shift, shift, reduce
the cursors variable holds 2 - 1 = 1 while the buffer cursor holds 2. -/
theorem c10_cursors_track_depth_witness :
    0 < cDemo.batch_size ∧
    (∀ s ≤ 2, cDemo.transitions s 0 = 0 ∨ cDemo.transitions s 0 = 1) ∧
    (runSteps cDemo 3 (zero cDemo zState)).cursors 0
      = (shiftCount cDemo 0 3 : ℤ) - (reduceCount cDemo 0 3 : ℤ) ∧
    (step cDemo 2 (runSteps cDemo 2 (zero cDemo zState))).cursors 0
      = (runSteps cDemo 2 (zero cDemo zState)).cursors 0 + 1
        - 2 * cDemo.transitions 2 0 :=
  ⟨by decide, by decide,
    (c10_cursors_track_depth cDemo zState (by decide) 2 (by decide)).1,
    (c10_cursors_track_depth cDemo zState (by decide) 2 (by decide)).2.1 2
      (runSteps cDemo 2 (zero cDemo zState))⟩

/-- Counterexample to C5 as stated: at the shift step t = 1 of the
end-to-end scenario, the cursor before the update is 1, yet after step 1
the queue at position [cursor_before_update] still holds 0 rather than the
timestep index 1 — the write went to the position indexed by the updated
cursor. -/
theorem c5_counterexample_write_not_at_old_cursor :
    (runSteps cDemo 1 (zero cDemo zState)).cursors 0 = 1 ∧
    (runSteps cDemo 2 (zero cDemo zState)).queue
        ((0 : ℤ) * cDemo.seq_length + 1) ≠ 1 := by
  constructor
  · decide
  · decide

/-- C5 amended: step t writes the timestep index t into the queue at the
position indexed by the cursor value after that step's cursor update
(cursors += 1 - 2*transition). -/
theorem c5_queue_write_at_updated_cursor [CommRing R] (c : Ctx R) (t : ℕ)
    (s : TSState R) {i : ℕ} (hi : i < c.batch_size) :
    (step c t s).queue ((i : ℤ) * c.seq_length + (step c t s).cursors i) = t := by
  show set_subtensor1i_s c t (mask_and_update_cursors c t s.cursors) s.queue _ = _
  unfold set_subtensor1i_s
  rw [if_pos ⟨i, Finset.mem_range.mpr hi, rfl⟩]

/-- Witness for the amended C5 at the first step of the end-to-end
scenario. -/
theorem c5_queue_write_at_updated_cursor_witness :
    0 < cDemo.batch_size ∧
    (step cDemo 0 zState).queue
        ((0 : ℤ) * cDemo.seq_length + (step cDemo 0 zState).cursors 0) = 0 :=
  ⟨by decide, c5_queue_write_at_updated_cursor cDemo 0 zState (by decide)⟩

end SpinnThinStack

namespace SpinnThinStack

variable {R : Type}

/-- C6: step t writes only stack row t: every row with a different index
keeps its contents across step t, and a row written at timestep t is never
overwritten by any later step of the same pass. -/
theorem c6_stack_rows_write_once [CommRing R] (c : Ctx R) :
    (∀ (s : TSState R) (t r i d : ℕ), r ≠ t → i < c.batch_size → d < c.model_dim →
      (step c t s).stack (((r : ℤ) * c.batch_size + i) * c.model_dim + d)
        = s.stack (((r : ℤ) * c.batch_size + i) * c.model_dim + d)) ∧
    (∀ (s₀ : TSState R) (t n : ℕ), t < n → ∀ i < c.batch_size, ∀ d < c.model_dim,
      (runSteps c n s₀).stack (((t : ℤ) * c.batch_size + i) * c.model_dim + d)
        = (runSteps c (t + 1) s₀).stack
            (((t : ℤ) * c.batch_size + i) * c.model_dim + d)) := by
  have part1 : ∀ (s : TSState R) (t r i d : ℕ), r ≠ t → i < c.batch_size →
      d < c.model_dim →
      (step c t s).stack (((r : ℤ) * c.batch_size + i) * c.model_dim + d)
        = s.stack (((r : ℤ) * c.batch_size + i) * c.model_dim + d) := by
    intro s t r i d hrt hi hd
    show mask_and_update_stack c t (bufferTopVal c s)
      (recurrence c (stack1Val c s t) (stack2Val c s)) s.stack _ = _
    rw [mask_and_update_stack_outside]
    rcases Nat.lt_or_ge r t with h | h
    · left
      exact_mod_cast rowAddr_lt_block h hi hd
    · right
      have hr : t + 1 ≤ r := by omega
      have hn := rowAddr_ge_block (B := c.batch_size) (D := c.model_dim)
        (i := i) (d := d) hr
      exact_mod_cast hn
  refine ⟨part1, ?_⟩
  intro s₀ t n htn i hi d hd
  induction n with
  | zero => omega
  | succ n ih =>
      rcases Nat.lt_or_ge t n with h | h
      · show (step c n (runSteps c n s₀)).stack _ = _
        rw [part1 (runSteps c n s₀) n t i d (by omega) hi hd]
        exact ih h
      · have hn : n = t := by omega
        subst hn
        rfl

/-- Witness for C6 on the end-to-end scenario: step 0 leaves row 1 alone,
and row 0 is unchanged between the end of step 0 and the end of step 1. -/
theorem c6_stack_rows_write_once_witness :
    ((step cDemo 0 zState).stack
        (((1 : ℕ) * cDemo.batch_size + 0 : ℕ) * cDemo.model_dim + (0 : ℕ))
      = zState.stack
        (((1 : ℕ) * cDemo.batch_size + 0 : ℕ) * cDemo.model_dim + (0 : ℕ))) ∧
    ((runSteps cDemo 2 zState).stack
        (((0 : ℕ) * cDemo.batch_size + 0 : ℕ) * cDemo.model_dim + (0 : ℕ))
      = (runSteps cDemo 1 zState).stack
        (((0 : ℕ) * cDemo.batch_size + 0 : ℕ) * cDemo.model_dim + (0 : ℕ))) := by
  constructor
  · exact_mod_cast (c6_stack_rows_write_once cDemo).1 zState 0 1 0 0
      (by decide) (by decide) (by decide)
  · exact_mod_cast (c6_stack_rows_write_once cDemo).2 zState 0 2
      (by decide) 0 (by decide) 0 (by decide)

/-- C3 resolution: ThinStack::recurrence computes only the two
accumulated matrix products; the bias broadcast-add and the rectification
promised by the spec are TODO comments in the source.  With zero weights,
zero children and bias one, the code produces 0 where the contract of the
spec produces 1. -/
theorem c3_recurrence_omits_bias_and_relu :
    recurrence cBias (fun _ _ => 0) (fun _ _ => 0) 0 0 = 0 ∧
    specCompose cBias (fun _ => (0 : ℤ)) (fun _ => 0) 0 = 1 ∧
    recurrence cBias (fun _ _ => 0) (fun _ _ => 0) 0 0
      ≠ specCompose cBias (fun _ => (0 : ℤ)) (fun _ => 0) 0 := by
  refine ⟨by decide, by decide, by decide⟩

/-- C4 resolution: the end-to-end trace of the spec holds for rows 0 and 1
and for the cursor, and the reduce at t = 2 composes exactly the two
shifted entries; but Stack[2] is W_l (1,1) + W_r (2,2) = (5,5) without
the bias the claim adds, so it differs from the claimed value 15. -/
theorem c4_end_to_end_trace :
    (runSteps cDemo 1 (zero cDemo zState)).stack 0 = 1 ∧
    (runSteps cDemo 1 (zero cDemo zState)).stack 1 = 1 ∧
    (runSteps cDemo 1 (zero cDemo zState)).buffer_cur_t 0 = 1 ∧
    (runSteps cDemo 2 (zero cDemo zState)).stack 2 = 2 ∧
    (runSteps cDemo 2 (zero cDemo zState)).stack 3 = 2 ∧
    (runSteps cDemo 2 (zero cDemo zState)).buffer_cur_t 0 = 2 ∧
    (forward cDemo zState).stack 4 = 5 ∧
    (forward cDemo zState).stack 5 = 5 ∧
    (forward cDemo zState).buffer_cur_t 0 = 2 ∧
    specCompose cDemo (fun _ => 1) (fun _ => 2) 0 = 15 ∧
    (forward cDemo zState).stack 4 ≠ specCompose cDemo (fun _ => 1) (fun _ => 2) 0 := by
  refine ⟨by decide, by decide, by decide, by decide, by decide, by decide,
    by decide, by decide, by decide, by decide, by decide⟩

/-- Counterexample to C7 as stated: with a reduce at t = 0 the core does
not fail; it completes forward, and two ambient memories that agree on
every allocated array extent (they differ only below the stack
allocation) yield different outputs — the composition silently read
uninitialized memory. -/
theorem c7_counterexample_no_rejection :
    (forward cBad zState).stack 0 ≠ (forward cBad junkBelow).stack 0 := by
  decide

/-- C7 amended: the core performs no validation: with a reduce at t = 0,
forward runs to completion and writes into stack row 0 a composition
whose value depends on the ambient memory below the allocated arrays
(zState and junkBelow agree at every address inside the stack and queue
extents, which cover addresses 0 and 1 here). -/
theorem c7_silent_composition_over_uninitialized_memory :
    cBad.transitions 0 0 = 1 ∧
    (forward cBad zState).stack 0 = 0 ∧
    (forward cBad junkBelow).stack 0 = 7 ∧
    zState.queue = junkBelow.queue ∧
    zState.cursors = junkBelow.cursors ∧
    zState.buffer_cur_t = junkBelow.buffer_cur_t ∧
    zState.stack 0 = junkBelow.stack 0 ∧
    zState.stack 1 = junkBelow.stack 1 :=
  ⟨by decide, by decide, by decide, rfl, rfl, rfl, by decide, by decide⟩

/-- Counterexample to C8 as stated: ThinStack::zero memsets only stack,
queue, cursors and buffer_cur_t; the per-step temporary container
buffer_top_t keeps whatever it held before. -/
theorem c8_counterexample_scratch_not_zeroed :
    (zero cDemo junkScratch).buffer_top_t 0 0 ≠ 0 := by
  decide

/-- C8 amended: after zero() the Stack, Queue, Cursors arrays and the
buffer-cursor accumulator are entirely zero on their allocated extents,
while the per-step temporary containers are left untouched. -/
theorem c8_zero_resets_core_arrays [CommRing R] (c : Ctx R) (s : TSState R) :
    (∀ a : ℤ, 0 ≤ a → a < ((c.seq_length * c.batch_size * c.model_dim : ℕ) : ℤ) →
      (zero c s).stack a = 0) ∧
    (∀ a : ℤ, 0 ≤ a → a < ((c.batch_size * c.seq_length : ℕ) : ℤ) →
      (zero c s).queue a = 0) ∧
    (∀ i < c.batch_size, (zero c s).cursors i = 0) ∧
    (∀ i < c.batch_size, (zero c s).buffer_cur_t i = 0) ∧
    (zero c s).buffer_top_t = s.buffer_top_t ∧
    (zero c s).stack_1_t = s.stack_1_t ∧
    (zero c s).stack_2_ptrs = s.stack_2_ptrs ∧
    (zero c s).stack_2_t = s.stack_2_t ∧
    (zero c s).merge_output = s.merge_output := by
  refine ⟨?_, ?_, ?_, ?_, rfl, rfl, rfl, rfl, rfl⟩
  · intro a h0 h1
    simp only [zero]
    rw [if_pos ⟨h0, h1⟩]
  · intro a h0 h1
    simp only [zero]
    rw [if_pos ⟨h0, h1⟩]
  · intro i hi
    simp [zero, hi]
  · intro i hi
    simp [zero, hi]

/-- Witness for the amended C8 on the end-to-end scenario with junk in the
temporary containers. -/
theorem c8_zero_resets_core_arrays_witness :
    (zero cDemo junkScratch).stack 0 = 0 ∧
    (zero cDemo junkScratch).queue 0 = 0 ∧
    (zero cDemo junkScratch).cursors 0 = 0 ∧
    (zero cDemo junkScratch).buffer_cur_t 0 = 0 ∧
    (zero cDemo junkScratch).merge_output = junkScratch.merge_output :=
  ⟨(c8_zero_resets_core_arrays cDemo junkScratch).1 0 (by decide) (by decide),
    (c8_zero_resets_core_arrays cDemo junkScratch).2.1 0 (by decide) (by decide),
    (c8_zero_resets_core_arrays cDemo junkScratch).2.2.1 0 (by decide),
    (c8_zero_resets_core_arrays cDemo junkScratch).2.2.2.1 0 (by decide),
    (c8_zero_resets_core_arrays cDemo junkScratch).2.2.2.2.2.2.2.2⟩

/-- C9: at t = 0 the gathers of ThinStack::step run unconditionally: the
stack_1 gather addresses are all negative (base offset (t-1)*batch_size =
-batch_size), the queue gather address of example 0 is cursors - 1 = -1
after reset, and the stack_1 gather actually reads the ambient memory at
those below-extent addresses — independent of the transitions input. -/
theorem c9_t0_gathers_out_of_range [CommRing R] (c : Ctx R) (s₀ : TSState R)
    (hB : 0 < c.batch_size) :
    (∀ i < c.batch_size, ∀ d < c.model_dim,
      stack1RowOff c 0 i * c.model_dim + d < 0) ∧
    queueGatherAddr c (zero c s₀) 0 = -1 ∧
    (∀ i < c.batch_size, ∀ d < c.model_dim,
      (step c 0 (zero c s₀)).stack_1_t i d
        = s₀.stack (stack1RowOff c 0 i * c.model_dim + d)) := by
  have part1 : ∀ i < c.batch_size, ∀ d < c.model_dim,
      stack1RowOff c 0 i * c.model_dim + d < 0 := by
    intro i hi d hd
    have h1 : (i : ℤ) - c.batch_size ≤ -1 := by omega
    have h2 : ((i : ℤ) - c.batch_size) * c.model_dim ≤ -1 * c.model_dim :=
      mul_le_mul_of_nonneg_right h1 (by positivity)
    have h3 : (d : ℤ) < (c.model_dim : ℤ) := by exact_mod_cast hd
    have h4 : stack1RowOff c 0 i = (i : ℤ) - c.batch_size := by
      unfold stack1RowOff
      push_cast
      ring
    rw [h4]
    linarith
  refine ⟨part1, ?_, ?_⟩
  · unfold queueGatherAddr
    have hc : (zero c s₀).cursors 0 = 0 := by simp [zero, hB]
    rw [hc]
    push_cast
    ring
  · intro i hi d hd
    have ha := part1 i hi d hd
    show stack1Val c (zero c s₀) 0 i d = _
    unfold stack1Val gatherRow
    show (zero c s₀).stack _ = _
    simp only [zero]
    rw [if_neg]
    rintro ⟨h0, _⟩
    omega

/-- Witness for C9 on the malformed-input scenario: the stack_1 address is
-1, the queue gather address is -1, and the gather reads the ambient
value below the stack extent. -/
theorem c9_t0_gathers_out_of_range_witness :
    0 < cBad.batch_size ∧
    stack1RowOff cBad 0 0 * cBad.model_dim + (0 : ℕ) < 0 ∧
    queueGatherAddr cBad (zero cBad junkBelow) 0 = -1 ∧
    (step cBad 0 (zero cBad junkBelow)).stack_1_t 0 0
      = junkBelow.stack (stack1RowOff cBad 0 0 * cBad.model_dim + (0 : ℕ)) :=
  ⟨by decide,
    (c9_t0_gathers_out_of_range cBad junkBelow (by decide)).1 0 (by decide) 0 (by decide),
    (c9_t0_gathers_out_of_range cBad junkBelow (by decide)).2.1,
    (c9_t0_gathers_out_of_range cBad junkBelow (by decide)).2.2 0 (by decide) 0 (by decide)⟩

end SpinnThinStack
